import Mathlib

/-!
Verification of the streaming binary frame decoder cluster of the
TactileGlove repository.  Byte buffers are modelled as `List Nat`
(each entry one byte, 0–255 by construction of `bytearray`), and the
Python methods are embedded as pure Lean functions: each method that
mutates `self.buffer` is a function from the old buffer to its result
together with the new buffer.  Exceptions (numpy reshape failures,
ZeroDivisionError) are modelled by explicit error constructors.
-/

/-- Sensor array row count (`ROWS = 6` in the receiver scripts). -/
def ROWS : Nat := 6

/-- Sensor array column count (`COLS = 4`). -/
def COLS : Nat := 4

/-- `TOTAL_CELLS = ROWS * COLS` from `Gesture_Collection_App.py`. -/
def TOTAL_CELLS : Nat := ROWS * COLS

/-- Decode a little-endian unsigned 16-bit value from two bytes, as
`struct.unpack('<H', ...)` does. -/
def le16 (lo hi : Nat) : Nat := lo + 256 * hi

/-- The two little-endian length bytes encoding a payload length. -/
def lenBytes (n : Nat) : List Nat := [n % 256, n / 256 % 256]

/-- A complete well-formed wire frame: start marker `0xAA`, u16 LE
length, the payload, trailer `0x55`. -/
def mkFrame (p : List Nat) : List Nat :=
  0xAA :: (lenBytes p.length ++ p ++ [0x55])

/-- A candidate frame that is well-formed except for its trailer byte
`t` (intended `t ≠ 0x55`). -/
def mkBadTailFrame (p : List Nat) (t : Nat) : List Nat :=
  0xAA :: (lenBytes p.length ++ p ++ [t])

/-- Index of the first occurrence of byte `x`, mirroring
`bytearray.find` for a one-byte pattern (`none` plays the role of the
sentinel `-1`). -/
def findByte (x : Nat) : List Nat → Option Nat
  | [] => Option.none
  | b :: rest =>
    if b = x then Option.some 0 else (findByte x rest).map (· + 1)

/-- Outcome of one `_extract_frame` call in the WIFI receiver
(`可拉伸外骨骼WIFI接收程序.py`): `none` mirrors `return None`,
`frame` a successfully returned payload (as raw bytes), and `error`
the `ValueError` raised by
`np.frombuffer(data, dtype=np.float32).reshape((ROWS, COLS))` when the
payload is not exactly `ROWS*COLS*4 = 96` bytes. -/
inductive ExtractOut where
  | none : ExtractOut
  | frame : List Nat → ExtractOut
  | error : ExtractOut
deriving DecidableEq, Repr

/-- `HighSpeedReceiver._extract_frame` of the WIFI receiver, as a
function from the buffer to the outcome and the new buffer.  The
Python loop is: find `0xAA`; need `start+3` bytes; read the u16 LE
length; need `start+3+data_len+1` bytes; if the final byte is not
`0x55` delete everything through the end of the candidate frame and
return `None`; otherwise slice the payload, delete the consumed range,
and return the numpy-reshaped payload (which raises unless
`data_len = 96`; the deletion has already happened at that point). -/
def extractFrameW (buf : List Nat) : ExtractOut × List Nat :=
  match findByte 0xAA buf with
  | Option.none => (ExtractOut.none, buf)
  | Option.some start =>
    if buf.length < start + 3 then (ExtractOut.none, buf)
    else
      let dataLen := le16 (buf.getD (start + 1) 0) (buf.getD (start + 2) 0)
      let totalLen := 3 + dataLen + 1
      if buf.length < start + totalLen then (ExtractOut.none, buf)
      else if buf.getD (start + totalLen - 1) 0 ≠ 0x55 then
        (ExtractOut.none, buf.drop (start + totalLen))
      else if dataLen = ROWS * COLS * 4 then
        (ExtractOut.frame ((buf.drop (start + 3)).take dataLen),
          buf.drop (start + totalLen))
      else
        (ExtractOut.error, buf.drop (start + totalLen))

/-- `HighSpeedReceiver._extract_frame` of the gesture-collection app
(`手势识别数据采集/Gesture_Collection_App.py`).  Differences from the
WIFI variant: a length sanity check (`data_len != TOTAL_CELLS * 4`
deletes `start+1` bytes and returns `None`), and a trailer failure
also deletes only `start+1` bytes.  The numpy reshape cannot fail here
because `data_len = 96` is enforced, so the result is an `Option`. -/
def extractFrameG (buf : List Nat) : Option (List Nat) × List Nat :=
  match findByte 0xAA buf with
  | Option.none => (Option.none, buf)
  | Option.some start =>
    if buf.length < start + 3 then (Option.none, buf)
    else
      let dataLen := le16 (buf.getD (start + 1) 0) (buf.getD (start + 2) 0)
      if dataLen ≠ TOTAL_CELLS * 4 then
        (Option.none, buf.drop (start + 1))
      else
        let totalLen := 3 + dataLen + 1
        if buf.length < start + totalLen then (Option.none, buf)
        else if buf.getD (start + totalLen - 1) 0 ≠ 0x55 then
          (Option.none, buf.drop (start + 1))
        else
          (Option.some ((buf.drop (start + 3)).take dataLen),
            buf.drop (start + totalLen))

-- sanity checks of the embedding on the spec's end-to-end examples
example :
    extractFrameW [0xAA, 4, 0, 1, 2, 3, 4, 0x55] = (ExtractOut.error, []) := by
  decide

example :
    extractFrameW (mkFrame (List.replicate 96 9)) =
      (ExtractOut.frame (List.replicate 96 9), []) := by
  decide

example :
    extractFrameG [0xAA, 4, 0, 1, 2, 3, 4, 0x55] =
      (Option.none, [4, 0, 1, 2, 3, 4, 0x55]) := by
  decide

example :
    extractFrameG (mkFrame (List.replicate 96 9)) =
      (Option.some (List.replicate 96 9), []) := by
  decide

/-- `findByte` never reports an index at or beyond the end. -/
lemma findByte_lt_length {x : Nat} {l : List Nat} {i : Nat}
    (h : findByte x l = Option.some i) : i < l.length := by
  induction l generalizing i with
  | nil => simp [findByte] at h
  | cons b rest ih =>
    simp only [findByte] at h
    split at h
    · cases h; simp
    · cases hr : findByte x rest with
      | none => rw [hr] at h; simp at h
      | some j =>
        rw [hr] at h
        simp only [Option.map] at h
        cases h
        have := ih hr
        simp only [List.length_cons]
        omega

/-- `findByte` returns `none` exactly when the byte is absent. -/
lemma findByte_eq_none {x : Nat} {l : List Nat} :
    findByte x l = Option.none ↔ x ∉ l := by
  induction l with
  | nil => simp [findByte]
  | cons b rest ih =>
    simp only [findByte, List.mem_cons]
    split
    · simp_all
    · cases hr : findByte x rest with
      | none =>
        simp only [hr, Option.map, true_iff]
        push_neg
        exact ⟨by omega, ih.mp hr⟩
      | some j => simp_all

/-- Locating a marker preceded by marker-free garbage. -/
lemma findByte_append {x : Nat} {g : List Nat} (r : List Nat)
    (hg : x ∉ g) : findByte x (g ++ x :: r) = Option.some g.length := by
  induction g with
  | nil => simp [findByte]
  | cons b rest ih =>
    simp only [List.mem_cons, not_or] at hg
    have hne : ¬ b = x := fun hbx => hg.1 hbx.symm
    simp only [List.cons_append, findByte, if_neg hne]
    have harw : rest.append (x :: r) = rest ++ x :: r := rfl
    rw [harw, ih hg.2]
    simp

/-- On a successful frame extraction the WIFI decoder strictly shrinks
the buffer (it consumes the whole `start + 3 + data_len + 1` range). -/
lemma extractFrameW_frame_shrink {buf p b : List Nat}
    (h : extractFrameW buf = (ExtractOut.frame p, b)) :
    b.length < buf.length := by
  unfold extractFrameW at h
  cases hf : findByte 0xAA buf with
  | none => rw [hf] at h; simp at h
  | some start =>
    rw [hf] at h
    simp only [] at h
    split at h
    · simp at h
    · split at h
      · simp at h
      · split at h
        · simp at h
        · split at h
          · rw [Prod.mk.injEq] at h
            obtain ⟨-, hb⟩ := h
            subst hb
            simp only [List.length_drop]
            omega
          · simp at h

/-- Result of the drain loop in `HighSpeedReceiver.receive`: either it
stopped normally with the last extracted frame (if any), or an
exception escaped the loop. -/
inductive DrainOut where
  | ok : Option (List Nat) → DrainOut
  | exc : DrainOut
deriving DecidableEq, Repr

/-- The `while True: extracted = self._extract_frame(); if extracted is
None: break; frame = extracted` loop of the WIFI receiver, keeping the
last successfully extracted frame.  An extraction error (numpy
reshape) aborts the loop exceptionally; the buffer mutations already
performed persist. -/
def drainW (buf : List Nat) : DrainOut × List Nat :=
  match h : extractFrameW buf with
  | (ExtractOut.none, b) => (DrainOut.ok Option.none, b)
  | (ExtractOut.error, b) => (DrainOut.exc, b)
  | (ExtractOut.frame p, b) =>
    match drainW b with
    | (DrainOut.ok Option.none, b2) => (DrainOut.ok (Option.some p), b2)
    | (DrainOut.ok (Option.some q), b2) => (DrainOut.ok (Option.some q), b2)
    | (DrainOut.exc, b2) => (DrainOut.exc, b2)
termination_by buf.length
decreasing_by exact extractFrameW_frame_shrink h

/-- `HighSpeedReceiver.receive` of the WIFI receiver, with the socket
read already performed: `data` is what `sock.recv` returned.  An empty
read returns `None` without touching the buffer; otherwise the chunk
is appended, the buffer drained, and any exception from the drain is
caught (`except Exception`) and turned into `None`. -/
def receiveW (data buf : List Nat) : Option (List Nat) × List Nat :=
  if data = [] then (Option.none, buf)
  else
    match drainW (buf ++ data) with
    | (DrainOut.ok last, b) => (last, b)
    | (DrainOut.exc, b) => (Option.none, b)

/-- `BUFFER_LIMIT = 1024` from `Glove_Quick.py`. -/
def BUFFER_LIMIT : Nat := 1024

/-- The inner extraction loop of `Glove_Quick.py`: repeatedly look for
the header `0xAA` and the footer `0x55`; while both are found with the
footer strictly after the header, the bytes between them are parsed
and printed (no state besides the buffer) and the buffer is cut after
the footer; otherwise the loop breaks.  Returns the final buffer. -/
def gqDrain (buf : List Nat) : List Nat :=
  match hh : findByte 0xAA buf, hf : findByte 0x55 buf with
  | Option.some h, Option.some f =>
    if h < f then gqDrain (buf.drop (f + 1)) else buf
  | _, _ => buf
termination_by buf.length
decreasing_by
  have := findByte_lt_length hf
  simp only [List.length_drop]
  omega

/-- One outer-loop pass of `Glove_Quick.py` after a successful serial
read: append the chunk, run the extraction loop, then apply the
overflow check `if len(buffer) > BUFFER_LIMIT: buffer = b""`.  The
boolean records whether the overflow branch fired (it prints the
resync message).  The time-based cleanup branch is not modelled. -/
def gqStep (buf chunk : List Nat) : List Nat × Bool :=
  let b := gqDrain (buf ++ chunk)
  if BUFFER_LIMIT < b.length then ([], true) else (b, false)

/-- `struct.calcsize('<BB10fB')`: two one-byte headers, ten 4-byte
floats, one checksum byte, no padding under `<`. -/
def PACKET_SIZE : Nat := 1 + 1 + 10 * 4 + 1

/-- Index of the first occurrence of the two-byte pattern `a b`,
mirroring `bytearray.find(bytes((a, b)))`. -/
def findHdr2 (a b : Nat) : List Nat → Option Nat
  | [] => Option.none
  | [_] => Option.none
  | x :: y :: rest =>
    if x = a ∧ y = b then Option.some 0
    else (findHdr2 a b (y :: rest)).map (· + 1)

/-- XOR-fold checksum of `SerialDataReader._calculate_checksum`. -/
def xorChecksum (l : List Nat) : Nat := l.foldl Nat.xor 0

/-- The inner packet loop of `SerialDataReader._read_loop` in
`十轴数据获取与可视化.py`: while at least `PACKET_SIZE` bytes are
buffered, find the header `0xAA 0xBB` (if absent, keep only the last
`PACKET_SIZE - 1` bytes and stop), cut the buffer at the header, stop
if fewer than `PACKET_SIZE` bytes remain, otherwise consume one packet
and, when its XOR checksum (over bytes 2..41) matches the final byte,
overwrite `latest_data` with the packet body (kept as raw bytes; the
Python code unpacks them as ten floats). -/
def imuDrain (buf : List Nat) (latest : Option (List Nat)) :
    List Nat × Option (List Nat) :=
  if h1 : buf.length < PACKET_SIZE then (buf, latest)
  else
    match findHdr2 0xAA 0xBB buf with
    | Option.none => (buf.drop (buf.length - (PACKET_SIZE - 1)), latest)
    | Option.some h =>
      if h2 : (buf.drop h).length < PACKET_SIZE then (buf.drop h, latest)
      else
        imuDrain ((buf.drop h).drop PACKET_SIZE)
          (if xorChecksum (((buf.drop h).take PACKET_SIZE).drop 2
                |>.take (PACKET_SIZE - 3)) =
              ((buf.drop h).take PACKET_SIZE).getD (PACKET_SIZE - 1) 0
           then Option.some (((buf.drop h).take PACKET_SIZE).drop 2
                |>.take (PACKET_SIZE - 3))
           else latest)
termination_by buf.length
decreasing_by
  simp only [List.length_drop] at h2 ⊢
  simp only [PACKET_SIZE] at h1 h2 ⊢
  omega

/-- The publication half of the latest-value cell: the assignment
`self.latest_data = SensorData(*values)` performed under the lock in
`SerialDataReader._read_loop` overwrites whatever was there. -/
def publish {α : Type} (v : α) (_ : Option α) : Option α := Option.some v

/-- `SerialDataReader.get_latest_data`: under the lock, read the cell,
clear it, and return what was read. -/
def takeLatest {α : Type} (c : Option α) : Option α × Option α :=
  (c, Option.none)

/-- Python float division as used by the rate trackers: raises
`ZeroDivisionError` when the denominator is zero.  Timestamps are
modelled as rationals. -/
def pydiv (a b : ℚ) : Except Unit ℚ :=
  if b = 0 then Except.error () else Except.ok (a / b)

/-- `deque(maxlen=m).append(t)`: appends on the right, dropping the
leftmost element when the deque is at capacity. -/
def record (maxlen : Nat) (t : ℚ) (w : List ℚ) : List ℚ :=
  if w.length < maxlen then w ++ [t] else (w.drop 1) ++ [t]

/-- `HighSpeedReceiver.get_fps` of the WIFI receiver: returns 0 with
fewer than two timestamps, otherwise divides by
`fps_tracker[-1] - fps_tracker[0]` with no positivity guard. -/
def getFpsW (w : List ℚ) : Except Unit ℚ :=
  if w.length < 2 then Except.ok 0
  else pydiv ((w.length : ℚ) - 1) (w.getD (w.length - 1) 0 - w.getD 0 0)

/-- `FrameRateTracker.get_fps` of `可拉伸外骨骼串口接收帧率程序.py`:
like the WIFI variant but returns 0 when the elapsed time is not
strictly positive, so the division is guarded. -/
def getFpsT (w : List ℚ) : Except Unit ℚ :=
  if w.length < 2 then Except.ok 0
  else if w.getD (w.length - 1) 0 - w.getD 0 0 ≤ 0 then Except.ok 0
  else pydiv ((w.length : ℚ) - 1) (w.getD (w.length - 1) 0 - w.getD 0 0)

/-- `SimpleTactileDisplay.get_fps` of the Qt display variant
(`可拉伸外骨骼WIFI接收窗口显示QT程序.py`): identical guard structure
to the serial `FrameRateTracker`. -/
def getFpsQt (w : List ℚ) : Except Unit ℚ :=
  if w.length < 2 then Except.ok 0
  else if w.getD (w.length - 1) 0 - w.getD 0 0 ≤ 0 then Except.ok 0
  else pydiv ((w.length : ℚ) - 1) (w.getD (w.length - 1) 0 - w.getD 0 0)

lemma le16_lenBytes {n : Nat} (h : n < 65536) :
    le16 (n % 256) (n / 256 % 256) = n := by
  unfold le16
  have h1 : n / 256 < 256 := by omega
  rw [Nat.mod_eq_of_lt h1]
  omega

lemma mkFrame_length (p : List Nat) : (mkFrame p).length = p.length + 4 := by
  simp [mkFrame, lenBytes]

lemma getD_append_cons (g : List Nat) (a : Nat) (r : List Nat) (i d : Nat) :
    (g ++ a :: r).getD (g.length + i) d = (a :: r).getD i d := by
  rw [List.getD_append_right _ _ _ _ (by omega)]
  congr 1
  omega

lemma extract_wf_96_W (g q tail : List Nat) (hg : 0xAA ∉ g)
    (hq : q.length = 96) :
    extractFrameW (g ++ mkFrame q ++ tail) = (ExtractOut.frame q, tail) := by
  have hform : g ++ mkFrame q ++ tail =
      g ++ 0xAA :: (96 :: 0 :: (q ++ 0x55 :: tail)) := by
    simp [mkFrame, lenBytes, hq]
  rw [hform]
  have hlen : (g ++ 0xAA :: (96 :: 0 :: (q ++ 0x55 :: tail))).length =
      g.length + 100 + tail.length := by
    simp [hq]
    omega
  have hg1 : (g ++ 0xAA :: (96 :: 0 :: (q ++ 0x55 :: tail))).getD
      (g.length + 1) 0 = 96 := by
    rw [getD_append_cons]
    rfl
  have hg2 : (g ++ 0xAA :: (96 :: 0 :: (q ++ 0x55 :: tail))).getD
      (g.length + 2) 0 = 0 := by
    rw [getD_append_cons]
    rfl
  have hg3 : (g ++ 0xAA :: (96 :: 0 :: (q ++ 0x55 :: tail))).getD
      (g.length + 99) 0 = 0x55 := by
    rw [getD_append_cons]
    simp only [List.getD_cons_succ]
    rw [List.getD_append_right _ _ _ _ (by omega)]
    simp [hq]
  have hdata : ((g ++ 0xAA :: (96 :: 0 :: (q ++ 0x55 :: tail))).drop
      (g.length + 3)) = q ++ 0x55 :: tail := by
    rw [List.drop_append]
    rfl
  have hdrop : (g ++ 0xAA :: (96 :: 0 :: (q ++ 0x55 :: tail))).drop
      (g.length + 100) = tail := by
    rw [List.drop_append]
    have h1 : (0xAA :: (96 :: 0 :: (q ++ 0x55 :: tail))).drop 100 =
        (q ++ 0x55 :: tail).drop 97 := rfl
    rw [h1, show (97 : Nat) = q.length + 1 from by omega, List.drop_append]
    simp
  unfold extractFrameW
  rw [findByte_append _ hg]
  simp only []
  rw [hg1, hg2]
  norm_num [le16]
  rw [if_neg (by omega)]
  rw [if_neg (by omega)]
  have hg3x := hg3
  rw [List.getD_eq_getElem?_getD] at hg3x
  rw [if_pos hg3x]
  rw [if_pos (show (96 : Nat) = ROWS * COLS * 4 from by norm_num [ROWS, COLS])]
  rw [List.take_left' hq]
  rw [show (97 : Nat) = q.length + 1 from by omega, List.drop_append]
  simp

lemma extract_wf_96_G (g q tail : List Nat) (hg : 0xAA ∉ g)
    (hq : q.length = 96) :
    extractFrameG (g ++ mkFrame q ++ tail) = (Option.some q, tail) := by
  have hform : g ++ mkFrame q ++ tail =
      g ++ 0xAA :: (96 :: 0 :: (q ++ 0x55 :: tail)) := by
    simp [mkFrame, lenBytes, hq]
  rw [hform]
  have hg1 : (g ++ 0xAA :: (96 :: 0 :: (q ++ 0x55 :: tail))).getD
      (g.length + 1) 0 = 96 := by
    rw [getD_append_cons]
    rfl
  have hg2 : (g ++ 0xAA :: (96 :: 0 :: (q ++ 0x55 :: tail))).getD
      (g.length + 2) 0 = 0 := by
    rw [getD_append_cons]
    rfl
  have hg3 : (g ++ 0xAA :: (96 :: 0 :: (q ++ 0x55 :: tail))).getD
      (g.length + 99) 0 = 0x55 := by
    rw [getD_append_cons]
    simp only [List.getD_cons_succ]
    rw [List.getD_append_right _ _ _ _ (by omega)]
    simp [hq]
  unfold extractFrameG
  rw [findByte_append _ hg]
  simp only []
  rw [hg1, hg2]
  norm_num [le16, TOTAL_CELLS, ROWS, COLS]
  rw [if_neg (by omega)]
  rw [if_neg (by omega)]
  have hg3x := hg3
  rw [List.getD_eq_getElem?_getD] at hg3x
  rw [if_pos hg3x]
  rw [List.take_left' hq]
  rw [show (97 : Nat) = q.length + 1 from by omega, List.drop_append]
  simp

lemma extract_badtail_W (p : List Nat) (t : Nat) (rest : List Nat)
    (hp : p.length < 65536) (ht : t ≠ 0x55) :
    extractFrameW (mkBadTailFrame p t ++ rest) = (ExtractOut.none, rest) := by
  have hform : mkBadTailFrame p t ++ rest =
      [0xAA, p.length % 256, p.length / 256 % 256] ++ (p ++ t :: rest) := by
    simp [mkBadTailFrame, lenBytes]
  rw [hform]
  unfold extractFrameW
  rw [show findByte 0xAA ([0xAA, p.length % 256, p.length / 256 % 256] ++
      (p ++ t :: rest)) = Option.some 0 from by simp [findByte]]
  simp only []
  norm_num
  rw [le16_lenBytes hp]
  rw [if_neg (by omega)]
  rw [if_neg (by omega)]
  have hgt : ((170:Nat) :: p.length % 256 :: p.length / 256 % 256 ::
      (p ++ t :: rest)).getD (3 + p.length) 0 = t := by
    rw [show (170:Nat) :: p.length % 256 :: p.length / 256 % 256 ::
        (p ++ t :: rest) =
        [(170:Nat), p.length % 256, p.length / 256 % 256] ++ (p ++ t :: rest)
        from rfl]
    rw [List.getD_append_right _ _ _ _ (by simp)]
    rw [show 3 + p.length - ([(170:Nat), p.length % 256,
        p.length / 256 % 256]).length = p.length from by simp]
    rw [List.getD_append_right _ _ _ _ (by omega)]
    simp
  rw [List.getD_eq_getElem?_getD] at hgt
  rw [if_neg (show ¬ _ = 85 from by rw [hgt]; exact ht)]
  have hdr : List.drop (3 + p.length) ((p.length % 256) ::
      (p.length / 256 % 256) :: (p ++ t :: rest)) = rest := by
    rw [show (p.length % 256) :: (p.length / 256 % 256) :: (p ++ t :: rest) =
        [p.length % 256, p.length / 256 % 256] ++ (p ++ t :: rest) from rfl]
    rw [show 3 + p.length =
        ([p.length % 256, p.length / 256 % 256] : List Nat).length +
          (p.length + 1) from by simp; omega]
    rw [List.drop_append]
    rw [List.drop_append 1]
    simp
  rw [hdr]

lemma extract_badtail_G (p : List Nat) (t : Nat) (rest : List Nat)
    (hp : p.length = 96) (ht : t ≠ 0x55) :
    extractFrameG (mkBadTailFrame p t ++ rest) =
      (Option.none, 96 :: 0 :: (p ++ t :: rest)) := by
  have hform : mkBadTailFrame p t ++ rest =
      0xAA :: 96 :: 0 :: (p ++ t :: rest) := by
    simp [mkBadTailFrame, lenBytes, hp]
  rw [hform]
  unfold extractFrameG
  rw [show findByte 0xAA ((0xAA:Nat) :: 96 :: 0 :: (p ++ t :: rest)) =
      Option.some 0 from by simp [findByte]]
  simp only []
  norm_num [le16, TOTAL_CELLS, ROWS, COLS]
  rw [if_neg (by omega)]
  rw [if_neg (by omega)]
  have hgt : (p ++ t :: rest)[(96:Nat)]?.getD 0 = t := by
    rw [← List.getD_eq_getElem?_getD]
    rw [List.getD_append_right _ _ _ _ (by omega)]
    simp [hp]
  rw [if_neg (show ¬ _ = 85 from by rw [hgt]; exact ht)]

lemma extract_prefix_W (p pre ext : List Nat) (hp : p.length < 65536)
    (hne : ext ≠ []) (heq : pre ++ ext = mkFrame p) :
    extractFrameW pre = (ExtractOut.none, pre) := by
  have hlen : pre.length + ext.length = p.length + 4 := by
    have h := congrArg List.length heq
    simp only [List.length_append, mkFrame_length] at h
    omega
  have hext : 0 < ext.length := List.length_pos.mpr hne
  cases pre with
  | nil => rfl
  | cons b pr =>
    have h0 : b :: (pr ++ ext) =
        0xAA :: (lenBytes p.length ++ p ++ [0x55]) := by
      rw [← List.cons_append]
      rw [heq]
      rfl
    rw [List.cons.injEq] at h0
    obtain ⟨hb, hpr⟩ := h0
    subst hb
    simp only [List.length_cons] at hlen
    unfold extractFrameW
    rw [show findByte 0xAA ((0xAA:Nat) :: pr) = Option.some 0 from by
      simp [findByte]]
    simp only []
    split
    · rfl
    · rename_i hge
      simp only [List.length_cons] at hge
      have hpr2 : 2 ≤ pr.length := by omega
      have e1 : pr.getD 0 0 = p.length % 256 := by
        have h : (pr ++ ext).getD 0 0 =
            (lenBytes p.length ++ p ++ [0x55]).getD 0 0 := by rw [hpr]
        rw [List.getD_append _ _ _ _ (by omega)] at h
        simpa [lenBytes] using h
      have e2 : pr.getD 1 0 = p.length / 256 % 256 := by
        have h : (pr ++ ext).getD 1 0 =
            (lenBytes p.length ++ p ++ [0x55]).getD 1 0 := by rw [hpr]
        rw [List.getD_append _ _ _ _ (by omega)] at h
        simpa [lenBytes] using h
      have h1 : ((0xAA:Nat) :: pr).getD (0 + 1) 0 = p.length % 256 := by
        simpa using e1
      have h2 : ((0xAA:Nat) :: pr).getD (0 + 2) 0 = p.length / 256 % 256 := by
        simpa using e2
      rw [h1, h2, le16_lenBytes hp]
      rw [if_pos (by simp only [List.length_cons]; omega)]

lemma extractFrameW_noise {buf : List Nat} (h : 0xAA ∉ buf) :
    extractFrameW buf = (ExtractOut.none, buf) := by
  unfold extractFrameW
  rw [findByte_eq_none.mpr h]

lemma drainW_none {buf b : List Nat}
    (h : extractFrameW buf = (ExtractOut.none, b)) :
    drainW buf = (DrainOut.ok Option.none, b) := by
  rw [drainW, h]

lemma drainW_exc {buf b : List Nat}
    (h : extractFrameW buf = (ExtractOut.error, b)) :
    drainW buf = (DrainOut.exc, b) := by
  rw [drainW, h]

lemma drainW_frame_none {buf p b b2 : List Nat}
    (h : extractFrameW buf = (ExtractOut.frame p, b))
    (h2 : drainW b = (DrainOut.ok Option.none, b2)) :
    drainW buf = (DrainOut.ok (Option.some p), b2) := by
  rw [drainW, h]
  simp only []
  rw [h2]

lemma receiveW_of_drain_exc {data buf b : List Nat} (hd : data ≠ [])
    (h : drainW (buf ++ data) = (DrainOut.exc, b)) :
    receiveW data buf = (Option.none, b) := by
  unfold receiveW
  rw [if_neg hd, h]

lemma receiveW_noise {data buf : List Nat} (hd : data ≠ [])
    (h : 0xAA ∉ buf ++ data) :
    receiveW data buf = (Option.none, buf ++ data) := by
  unfold receiveW
  rw [if_neg hd, drainW_none (extractFrameW_noise h)]

lemma extractFrameG_step (buf : List Nat) :
    (extractFrameG buf).2 = buf ∨
      (extractFrameG buf).2.length < buf.length := by
  unfold extractFrameG
  cases hf : findByte 0xAA buf with
  | none => left; rfl
  | some s =>
    have hs := findByte_lt_length hf
    simp only []
    split
    · left; rfl
    · split
      · right
        simp only [List.length_drop]
        omega
      · split
        · left; rfl
        · split
          · right
            simp only [List.length_drop]
            omega
          · right
            simp only [List.length_drop]
            omega

lemma extractFrameG_sanity_drop {buf : List Nat} {s : Nat}
    (hf : findByte 0xAA buf = Option.some s) (hlen : s + 3 ≤ buf.length)
    (hbad : le16 (buf.getD (s + 1) 0) (buf.getD (s + 2) 0) ≠
      TOTAL_CELLS * 4) :
    extractFrameG buf = (Option.none, buf.drop (s + 1)) := by
  unfold extractFrameG
  rw [hf]
  simp only []
  rw [if_neg (by omega), if_pos hbad]

lemma extractFrameG_tail_drop {buf : List Nat} {s : Nat}
    (hf : findByte 0xAA buf = Option.some s)
    (hok : le16 (buf.getD (s + 1) 0) (buf.getD (s + 2) 0) =
      TOTAL_CELLS * 4)
    (hlen2 : s + 100 ≤ buf.length)
    (hbad : buf.getD (s + 99) 0 ≠ 0x55) :
    extractFrameG buf = (Option.none, buf.drop (s + 1)) := by
  unfold extractFrameG
  rw [hf]
  simp only []
  rw [if_neg (by omega)]
  rw [if_neg (show ¬ _ ≠ TOTAL_CELLS * 4 from by rw [hok]; simp)]
  rw [hok]
  rw [if_neg (by simp [TOTAL_CELLS, ROWS, COLS]; omega)]
  rw [if_pos (show buf.getD (s + (3 + TOTAL_CELLS * 4 + 1) - 1) 0 ≠ 85 from by
    rw [show s + (3 + TOTAL_CELLS * 4 + 1) - 1 = s + 99 from by
      simp [TOTAL_CELLS, ROWS, COLS]]
    exact hbad)]

lemma extractFrameG_stab_aux (N : Nat) :
    ∀ buf : List Nat, buf.length ≤ N →
      ∃ n, n ≤ N ∧
        (fun b => (extractFrameG b).2)^[n + 1] buf =
          (fun b => (extractFrameG b).2)^[n] buf := by
  induction N with
  | zero =>
    intro buf hb
    have hnil : buf = [] := List.length_eq_zero.mp (Nat.le_zero.mp hb)
    subst hnil
    exact ⟨0, le_refl _, by simp [extractFrameG, findByte]⟩
  | succ N ih =>
    intro buf hb
    rcases extractFrameG_step buf with hfix | hlt
    · exact ⟨0, Nat.zero_le _, by simp [hfix]⟩
    · obtain ⟨n, hn2, hstab⟩ := ih ((extractFrameG buf).2) (by omega)
      refine ⟨n + 1, by omega, ?_⟩
      rw [Function.iterate_succ_apply, Function.iterate_succ_apply]
      exact hstab

lemma gqDrain_le_aux (N : Nat) :
    ∀ buf : List Nat, buf.length ≤ N →
      (gqDrain buf).length ≤ buf.length := by
  induction N with
  | zero =>
    intro buf hb
    have hnil : buf = [] := List.length_eq_zero.mp (Nat.le_zero.mp hb)
    subst hnil
    rw [gqDrain]
    simp [findByte]
  | succ N ih =>
    intro buf hb
    rw [gqDrain]
    cases hh : findByte 0xAA buf with
    | none => simp
    | some h =>
      cases hf55 : findByte 0x55 buf with
      | none => simp
      | some f =>
        simp only []
        split
        · have hfl := findByte_lt_length hf55
          have hrec := ih (buf.drop (f + 1))
            (by simp only [List.length_drop]; omega)
          simp only [List.length_drop] at hrec ⊢
          omega
        · exact le_refl _

lemma gqDrain_le (buf : List Nat) : (gqDrain buf).length ≤ buf.length :=
  gqDrain_le_aux buf.length buf (le_refl _)

lemma imuDrain_lt_aux (N : Nat) :
    ∀ (buf : List Nat) (latest : Option (List Nat)), buf.length ≤ N →
      ((imuDrain buf latest).1).length < PACKET_SIZE := by
  induction N with
  | zero =>
    intro buf latest hb
    have hnil : buf = [] := List.length_eq_zero.mp (Nat.le_zero.mp hb)
    subst hnil
    rw [imuDrain]
    simp [PACKET_SIZE]
  | succ N ih =>
    intro buf latest hb
    rw [imuDrain]
    split
    · simpa using (by assumption : buf.length < PACKET_SIZE)
    · rename_i h1
      cases hh : findHdr2 0xAA 0xBB buf with
      | none =>
        simp only [List.length_drop]
        simp only [PACKET_SIZE] at h1 ⊢
        omega
      | some h =>
        simp only []
        split
        · rename_i h2
          simpa using h2
        · rename_i h2
          simp only [List.length_drop] at h2 ⊢
          have hrec : ((buf.drop h).drop PACKET_SIZE).length ≤ N := by
            simp only [List.length_drop]
            simp only [PACKET_SIZE] at h1 h2 ⊢
            omega
          exact ih _ _ hrec

/-- C1 counterexample: the buffer `AA 04 00 01 02 03 04 55 77` is one
complete well-formed frame (payload `01 02 03 04`) followed by a
trailing byte, yet the WIFI `_extract_frame` does not return that
frame: the numpy reshape raises because the payload is not 96 bytes
(the consumed bytes are still deleted first). -/
theorem c1_counterexample :
    extractFrameW [0xAA, 4, 0, 1, 2, 3, 4, 0x55, 0x77] =
      (ExtractOut.error, [0x77]) ∧
    ExtractOut.error ≠ ExtractOut.frame [1, 2, 3, 4] := by
  constructor
  · decide
  · decide

/-- C1 (amended): for every buffer that is one complete well-formed
frame whose payload length is exactly `ROWS * COLS * 4 = 96` bytes
(the only length the payload decode accepts) followed by arbitrary
trailing bytes, a single `_extract_frame` call — in the WIFI variant
and in the gesture-collection variant alike — returns exactly that
payload and leaves exactly the trailing bytes in the buffer. -/
theorem c1_extract_wellformed (p rest : List Nat)
    (hp : p.length = ROWS * COLS * 4) :
    extractFrameW (mkFrame p ++ rest) = (ExtractOut.frame p, rest) ∧
    extractFrameG (mkFrame p ++ rest) = (Option.some p, rest) := by
  have hp96 : p.length = 96 := by simpa [ROWS, COLS] using hp
  constructor
  · have h := extract_wf_96_W [] p rest (by simp) hp96
    simpa using h
  · have h := extract_wf_96_G [] p rest (by simp) hp96
    simpa using h

/-- C1 witness: concrete 96-byte payload with one trailing byte. -/
theorem c1_extract_wellformed_witness :
    extractFrameW (mkFrame (List.replicate 96 7) ++ [9]) =
      (ExtractOut.frame (List.replicate 96 7), [9]) ∧
    extractFrameG (mkFrame (List.replicate 96 7) ++ [9]) =
      (Option.some (List.replicate 96 7), [9]) :=
  c1_extract_wellformed (List.replicate 96 7) [9] (by simp [ROWS, COLS])

/-- C2 counterexample: the single-chunk (contiguous) submission of the
well-formed frame `AA 04 00 01 02 03 04 55` emits no frame at all —
the extraction ends in the numpy reshape exception — so the claim that
after the final chunk exactly one frame is emitted fails for this
well-formed frame. -/
theorem c2_counterexample :
    extractFrameW [0xAA, 4, 0, 1, 2, 3, 4, 0x55] = (ExtractOut.error, []) ∧
    ExtractOut.error ≠ ExtractOut.frame [1, 2, 3, 4] := by
  constructor
  · decide
  · decide

/-- C2 (amended): for every well-formed frame split into chunks, at
every stage at which the accumulated bytes are not yet the whole
frame, the WIFI `_extract_frame` returns `None` and consumes nothing;
and once all bytes are present it emits the frame — exactly one, equal
to the contiguous-submission result — provided the payload length is
the 96 bytes the payload decode accepts. -/
theorem c2_chunking (p : List Nat) (chunks : List (List Nat)) (k : Nat)
    (hp : p.length < 65536) (hj : chunks.flatten = mkFrame p)
    (hne : (chunks.take k).flatten ≠ mkFrame p) :
    extractFrameW ((chunks.take k).flatten) =
      (ExtractOut.none, (chunks.take k).flatten) ∧
    (p.length = ROWS * COLS * 4 →
      extractFrameW (mkFrame p) = (ExtractOut.frame p, [])) := by
  constructor
  · have hsplit : (chunks.take k).flatten ++ (chunks.drop k).flatten =
        mkFrame p := by
      rw [← List.flatten_append, List.take_append_drop, hj]
    have hext : (chunks.drop k).flatten ≠ [] := by
      intro h0
      rw [h0, List.append_nil] at hsplit
      exact hne hsplit
    exact extract_prefix_W p _ _ hp hext hsplit
  · intro hp96
    have h := extract_wf_96_W [] p [] (by simp)
      (by simpa [ROWS, COLS] using hp96)
    simpa using h

/-- C2 witness: the frame for a concrete 96-byte payload, split into
the chunk list `[[AA], rest]`; after the first chunk extraction
returns `None` without consuming, and the full frame is emitted. -/
theorem c2_chunking_witness :
    extractFrameW [0xAA] = (ExtractOut.none, [0xAA]) ∧
    extractFrameW (mkFrame (List.replicate 96 7)) =
      (ExtractOut.frame (List.replicate 96 7), []) := by
  have h := c2_chunking (List.replicate 96 7)
    [[0xAA], (mkFrame (List.replicate 96 7)).drop 1] 1
    (by simp) (by simp [mkFrame]) (by simp [mkFrame])
  exact ⟨by simpa using h.1, h.2 (by simp [ROWS, COLS])⟩

/-- C3 counterexample: on the spec's own example `AA 04 00 01 02 03 04
00` (wrong trailer `0x00`) the WIFI `_extract_frame` deletes the whole
candidate frame — the buffer afterwards is empty — and not just one
byte past the marker, so scanning does not resume from byte offset 1. -/
theorem c3_counterexample :
    extractFrameW [0xAA, 4, 0, 1, 2, 3, 4, 0x00] = (ExtractOut.none, []) ∧
    ([] : List Nat) ≠ List.drop 1 [0xAA, 4, 0, 1, 2, 3, 4, 0x00] := by
  constructor
  · decide
  · decide

/-- C3 (amended): on a trailer-corrupted candidate frame the
gesture-collection `_extract_frame` removes exactly the bytes up to
and including the failed start marker (one byte), while the WIFI
variant removes the entire candidate-frame range; in both variants
zero frames are emitted for the corrupted range and a well-formed
frame immediately following the corrupted one is still decoded. -/
theorem c3_resync (p q tail : List Nat) (t : Nat)
    (hp : p.length = 96) (hq : q.length = 96) (ht : t ≠ 0x55)
    (htA : t ≠ 0xAA) (hpA : 0xAA ∉ p) :
    extractFrameW (mkBadTailFrame p t ++ (mkFrame q ++ tail)) =
      (ExtractOut.none, mkFrame q ++ tail) ∧
    extractFrameW (mkFrame q ++ tail) = (ExtractOut.frame q, tail) ∧
    extractFrameG (mkBadTailFrame p t ++ (mkFrame q ++ tail)) =
      (Option.none, (mkBadTailFrame p t ++ (mkFrame q ++ tail)).drop 1) ∧
    extractFrameG ((mkBadTailFrame p t ++ (mkFrame q ++ tail)).drop 1) =
      (Option.some q, tail) := by
  have hdrop1 : (mkBadTailFrame p t ++ (mkFrame q ++ tail)).drop 1 =
      96 :: 0 :: (p ++ t :: (mkFrame q ++ tail)) := by
    simp [mkBadTailFrame, lenBytes, hp]
  refine ⟨?_, ?_, ?_, ?_⟩
  · exact extract_badtail_W p t _ (by omega) ht
  · have h := extract_wf_96_W [] q tail (by simp) hq
    simpa using h
  · rw [extract_badtail_G p t _ hp ht, hdrop1]
  · rw [hdrop1]
    have hform : 96 :: 0 :: (p ++ t :: (mkFrame q ++ tail)) =
        (96 :: 0 :: (p ++ [t])) ++ mkFrame q ++ tail := by
      simp
    rw [hform]
    refine extract_wf_96_G _ q tail ?_ hq
    intro hmem
    simp only [List.mem_cons, List.mem_append, List.mem_singleton] at hmem
    rcases hmem with h | h | h | h
    · omega
    · omega
    · exact hpA h
    · simp at h
      exact htA h.symm

/-- C3 witness: a concrete corrupted frame (payload of 96 ones,
trailer 0) directly followed by a well-formed frame (payload of 96
twos) and one trailing byte. -/
theorem c3_resync_witness :
    extractFrameW (mkBadTailFrame (List.replicate 96 1) 0 ++
        (mkFrame (List.replicate 96 2) ++ [7])) =
      (ExtractOut.none, mkFrame (List.replicate 96 2) ++ [7]) ∧
    extractFrameW (mkFrame (List.replicate 96 2) ++ [7]) =
      (ExtractOut.frame (List.replicate 96 2), [7]) ∧
    extractFrameG (mkBadTailFrame (List.replicate 96 1) 0 ++
        (mkFrame (List.replicate 96 2) ++ [7])) =
      (Option.none, (mkBadTailFrame (List.replicate 96 1) 0 ++
        (mkFrame (List.replicate 96 2) ++ [7])).drop 1) ∧
    extractFrameG ((mkBadTailFrame (List.replicate 96 1) 0 ++
        (mkFrame (List.replicate 96 2) ++ [7])).drop 1) =
      (Option.some (List.replicate 96 2), [7]) :=
  c3_resync (List.replicate 96 1) (List.replicate 96 2) [7] 0
    (by simp) (by simp) (by decide) (by decide)
    (by simp [List.mem_replicate])

lemma not_mem_replicate (x y n : Nat) (h : x ≠ y) :
    x ∉ List.replicate n y := by
  intro hm
  rw [List.mem_replicate] at hm
  exact h hm.2

lemma gqDrain_noise {buf : List Nat} (h : 0xAA ∉ buf) :
    gqDrain buf = buf := by
  rw [gqDrain, findByte_eq_none.mpr h]

/-- C4 counterexample: the WIFI receiver has no buffer ceiling at all.
Two receive calls, each delivering 4096 bytes of pure noise (no `0xAA`
marker), leave the accumulator at 8192 bytes — beyond any configured
ceiling in the spec's 1024–4096 range — with no reset. -/
theorem c4_counterexample :
    ((receiveW (List.replicate 4096 1)
      (receiveW (List.replicate 4096 1) []).2).2).length = 8192 ∧
    4096 < 8192 := by
  have hne : List.replicate 4096 1 ≠ ([] : List Nat) := by
    intro h
    have h2 := congrArg List.length h
    rw [List.length_replicate, List.length_nil] at h2
    omega
  have hmem : (0xAA : Nat) ∉ List.replicate 4096 1 :=
    not_mem_replicate 0xAA 1 4096 (by decide)
  have h1 : receiveW (List.replicate 4096 1) [] =
      (Option.none, [] ++ List.replicate 4096 1) := by
    refine receiveW_noise hne ?_
    rw [List.nil_append]
    exact hmem
  rw [h1]
  simp only [List.nil_append]
  have hmem2 : (0xAA : Nat) ∉
      List.replicate 4096 1 ++ List.replicate 4096 1 := by
    intro hm
    rw [List.mem_append] at hm
    rcases hm with hm | hm <;> exact hmem hm
  have h2 : receiveW (List.replicate 4096 1) (List.replicate 4096 1) =
      (Option.none, List.replicate 4096 1 ++ List.replicate 4096 1) :=
    receiveW_noise hne hmem2
  rw [h2]
  constructor
  · rw [List.length_append, List.length_replicate]
  · omega

/-- C4 (amended): the ceiling behaviour holds for `Glove_Quick.py` at
the granularity of one outer-loop pass: after append + extraction +
overflow check, the buffer never exceeds `BUFFER_LIMIT = 1024` bytes,
and whenever the post-extraction buffer exceeds the ceiling it is
cleared entirely and the overflow condition signalled.  (The WIFI
receiver variant has no ceiling; see the counterexample.) -/
theorem c4_glove_quick_ceiling (buf chunk : List Nat) :
    ((gqStep buf chunk).1).length ≤ BUFFER_LIMIT ∧
    (BUFFER_LIMIT < (gqDrain (buf ++ chunk)).length →
      gqStep buf chunk = ([], true)) := by
  unfold gqStep
  by_cases hov : BUFFER_LIMIT < (gqDrain (buf ++ chunk)).length
  · rw [if_pos hov]
    exact ⟨by simp, fun _ => rfl⟩
  · rw [if_neg hov]
    constructor
    · show (gqDrain (buf ++ chunk)).length ≤ BUFFER_LIMIT
      omega
    · exact fun h => absurd h hov

/-- C4 witness: a 1025-byte noise chunk appended to an empty buffer
exceeds the ceiling and the buffer is cleared with the flag raised. -/
theorem c4_glove_quick_ceiling_witness :
    gqStep [] (List.replicate 1025 1) = ([], true) := by
  refine (c4_glove_quick_ceiling [] (List.replicate 1025 1)).2 ?_
  rw [List.nil_append,
    gqDrain_noise (not_mem_replicate 0xAA 1 1025 (by decide))]
  rw [List.length_replicate]
  decide

/-- C5: latest-value cell semantics of `SerialDataReader`: a publish
overwrites any unread value; `get_latest_data` removes and returns the
current value leaving the cell empty; publishing `f1` then `f2` with
no intervening take yields `f2` from the first take and `None` from
the second. -/
theorem c5_latest_cell (f1 f2 : List Nat) (c : Option (List Nat)) :
    publish f2 (publish f1 c) = Option.some f2 ∧
    takeLatest (publish f2 (publish f1 c)) =
      (Option.some f2, Option.none) ∧
    takeLatest ((takeLatest (publish f2 (publish f1 c))).2) =
      (Option.none, Option.none) ∧
    takeLatest c = (c, Option.none) := by
  simp [publish, takeLatest]

/-- C6 counterexample: with two coinciding timestamps the WIFI
`get_fps` performs `1 / 0.0` and raises `ZeroDivisionError` instead of
returning a value (`time.time()` can return the same float twice). -/
theorem c6_counterexample :
    getFpsW [1, 1] = Except.error () ∧
    getFpsW [1, 1] ≠ Except.ok (((2 : ℚ) - 1) / (1 - 1)) := by
  have h : getFpsW [1, 1] = Except.error () := by
    norm_num [getFpsW, pydiv]
  refine ⟨h, ?_⟩
  rw [h]
  intro h2
  exact Except.noConfusion h2

/-- C6 (amended): with 0 or 1 recorded timestamps both rate trackers
return 0; with k ≥ 2 timestamps whose oldest is strictly before the
newest, both return `(k - 1) / (newest - oldest)`; when newest and
oldest coincide the WIFI `get_fps` raises `ZeroDivisionError` (the
serial `FrameRateTracker` returns 0 instead); the fixed-capacity
window drops its oldest timestamp when recording at capacity. -/
theorem c6_rate (w : List ℚ) (t : ℚ) (h2 : 2 ≤ w.length)
    (hlt : w.getD 0 0 < w.getD (w.length - 1) 0) :
    getFpsW w = Except.ok (((w.length : ℚ) - 1) /
        (w.getD (w.length - 1) 0 - w.getD 0 0)) ∧
    getFpsT w = Except.ok (((w.length : ℚ) - 1) /
        (w.getD (w.length - 1) 0 - w.getD 0 0)) ∧
    (∀ v : List ℚ, v.length < 2 →
      getFpsW v = Except.ok 0 ∧ getFpsT v = Except.ok 0) ∧
    (w.length = 30 → record 30 t w = w.drop 1 ++ [t]) := by
  have hpos : (0 : ℚ) < w.getD (w.length - 1) 0 - w.getD 0 0 :=
    sub_pos.mpr hlt
  have hne0 : w.getD (w.length - 1) 0 - w.getD 0 0 ≠ 0 := ne_of_gt hpos
  refine ⟨?_, ?_, ?_, ?_⟩
  · unfold getFpsW pydiv
    rw [if_neg (by omega), if_neg hne0]
  · unfold getFpsT pydiv
    rw [if_neg (by omega), if_neg (not_le.mpr hpos), if_neg hne0]
  · intro v hv
    constructor
    · unfold getFpsW
      rw [if_pos hv]
    · unfold getFpsT
      rw [if_pos hv]
  · intro h30
    unfold record
    rw [if_neg (by omega)]

/-- C6 witness: three timestamps 0, 1, 3 give a rate of 2/3 in both
variants. -/
theorem c6_rate_witness :
    getFpsW [0, 1, 3] = Except.ok (2 / 3) ∧
    getFpsT [0, 1, 3] = Except.ok (2 / 3) := by
  have h := c6_rate [0, 1, 3] 5 (by simp) (by norm_num [List.getD])
  obtain ⟨h1, h2, -, -⟩ := h
  constructor
  · rw [h1]
    norm_num [List.getD]
  · rw [h2]
    norm_num [List.getD]

/-- C7: the WIFI `receive` wraps its whole read-and-drain loop in
`try/except`: whenever the drain loop ends in an exception (bad
payload length reaching the numpy reshape — the only raising site in
the framing path), `receive` returns `None` with the buffer as the
failed drain left it, so no exception propagates to the caller and a
corrupted byte cannot terminate the stream-processing loop. -/
theorem c7_receive_catches (data buf b : List Nat) (hd : data ≠ [])
    (hexc : drainW (buf ++ data) = (DrainOut.exc, b)) :
    receiveW data buf = (Option.none, b) :=
  receiveW_of_drain_exc hd hexc

/-- C7 witness: a frame whose payload length 4 passes framing but
fails the payload decode; receive returns `None` and keeps running. -/
theorem c7_receive_catches_witness :
    receiveW [0xAA, 4, 0, 1, 2, 3, 4, 0x55] [] = (Option.none, []) :=
  c7_receive_catches [0xAA, 4, 0, 1, 2, 3, 4, 0x55] [] []
    (by decide) (drainW_exc (by decide))

/-- C8: forward progress of the gesture-collection decoder: when a
start marker is found and the length sanity check fails, or the
trailer check fails, exactly the bytes up to one past the marker are
removed (strictly shrinking the buffer); every call either leaves the
buffer unchanged (a fixpoint of further calls) or strictly shrinks it;
hence repeatedly calling `_extract_frame` on a fixed finite buffer
stabilises within `buf.length` steps and cannot loop forever. -/
theorem c8_forward_progress (buf : List Nat) (s : Nat)
    (hf : findByte 0xAA buf = Option.some s) :
    (s + 3 ≤ buf.length →
      le16 (buf.getD (s + 1) 0) (buf.getD (s + 2) 0) ≠ TOTAL_CELLS * 4 →
      extractFrameG buf = (Option.none, buf.drop (s + 1)) ∧
        (buf.drop (s + 1)).length < buf.length) ∧
    (le16 (buf.getD (s + 1) 0) (buf.getD (s + 2) 0) = TOTAL_CELLS * 4 →
      s + 100 ≤ buf.length → buf.getD (s + 99) 0 ≠ 0x55 →
      extractFrameG buf = (Option.none, buf.drop (s + 1)) ∧
        (buf.drop (s + 1)).length < buf.length) ∧
    ((extractFrameG buf).2 = buf ∨
      (extractFrameG buf).2.length < buf.length) ∧
    (∃ n, n ≤ buf.length ∧
      (fun b => (extractFrameG b).2)^[n + 1] buf =
        (fun b => (extractFrameG b).2)^[n] buf) := by
  have hs := findByte_lt_length hf
  refine ⟨?_, ?_, extractFrameG_step buf, ?_⟩
  · intro hlen hbad
    refine ⟨extractFrameG_sanity_drop hf hlen hbad, ?_⟩
    simp only [List.length_drop]
    omega
  · intro hok hlen2 hbad
    refine ⟨extractFrameG_tail_drop hf hok hlen2 hbad, ?_⟩
    simp only [List.length_drop]
    omega
  · exact extractFrameG_stab_aux buf.length buf (le_refl _)

/-- C8 witness: buffer `AA 04 00 09` has a marker at offset 0 and a
length field 4 that fails the sanity check; one byte is removed. -/
theorem c8_forward_progress_witness :
    extractFrameG [0xAA, 4, 0, 9] =
      (Option.none, List.drop 1 [0xAA, 4, 0, 9]) ∧
    (List.drop 1 [0xAA, 4, 0, 9]).length <
      ([0xAA, 4, 0, 9] : List Nat).length :=
  (c8_forward_progress [0xAA, 4, 0, 9] 0 (by decide)).1
    (by decide) (by decide)

/-- C9 counterexample: `PACKET_SIZE = struct.calcsize('<BB10fB')` is
43, not 45; a 44-byte header-free buffer is at least `PACKET_SIZE`
long, so the inner loop runs and truncates it to its last
`PACKET_SIZE - 1 = 42` bytes — under the claim's figure of 45 the loop
would not even run on 44 bytes. -/
theorem c9_counterexample :
    PACKET_SIZE = 43 ∧ PACKET_SIZE ≠ 45 ∧
    (imuDrain (List.replicate 44 0) Option.none).1 =
      List.replicate 42 0 := by
  refine ⟨rfl, by decide, ?_⟩
  rw [imuDrain]
  rw [dif_neg (by decide)]
  rw [show findHdr2 0xAA 0xBB (List.replicate 44 0) = Option.none from by
    decide]
  decide

/-- C9 (amended): whenever the inner packet loop of the IMU reader
finishes, the accumulator holds strictly fewer than `PACKET_SIZE = 43`
bytes: with no header the buffer is truncated to its last 42 bytes,
and otherwise whole packets are consumed, so the buffer stays bounded
during desync even though no explicit ceiling is configured. -/
theorem c9_imu_buffer_bound (buf : List Nat) (latest : Option (List Nat)) :
    ((imuDrain buf latest).1).length < PACKET_SIZE :=
  imuDrain_lt_aux buf.length buf latest (le_refl _)

/-- C10: the Qt display `get_fps` is total: it returns 0 with fewer
than two timestamps or a non-positive elapsed time, divides only when
the elapsed time is strictly positive, and therefore never raises
`ZeroDivisionError` even when timestamps coincide. -/
theorem c10_qt_fps_total (w : List ℚ) :
    (∃ q, getFpsQt w = Except.ok q) ∧
    (w.length < 2 → getFpsQt w = Except.ok 0) ∧
    (w.getD (w.length - 1) 0 - w.getD 0 0 ≤ 0 →
      getFpsQt w = Except.ok 0) ∧
    (2 ≤ w.length → 0 < w.getD (w.length - 1) 0 - w.getD 0 0 →
      getFpsQt w = Except.ok (((w.length : ℚ) - 1) /
        (w.getD (w.length - 1) 0 - w.getD 0 0))) := by
  refine ⟨?_, ?_, ?_, ?_⟩
  · unfold getFpsQt pydiv
    by_cases hl : w.length < 2
    · exact ⟨0, by rw [if_pos hl]⟩
    · by_cases hd : w.getD (w.length - 1) 0 - w.getD 0 0 ≤ 0
      · exact ⟨0, by rw [if_neg hl, if_pos hd]⟩
      · refine ⟨((w.length : ℚ) - 1) /
          (w.getD (w.length - 1) 0 - w.getD 0 0), ?_⟩
        rw [if_neg hl, if_neg hd, if_neg (by intro h0; rw [h0] at hd; simp at hd)]
  · intro hl
    unfold getFpsQt
    rw [if_pos hl]
  · intro hd
    unfold getFpsQt
    by_cases hl : w.length < 2
    · rw [if_pos hl]
    · rw [if_neg hl, if_pos hd]
  · intro hl hd
    unfold getFpsQt pydiv
    rw [if_neg (by omega), if_neg (not_le.mpr hd), if_neg (ne_of_gt hd)]

/-- C10 witness: timestamps 0, 1, 3 give 2/3; coinciding timestamps
give 0 rather than an error. -/
theorem c10_qt_fps_total_witness :
    getFpsQt [0, 1, 3] = Except.ok (2 / 3) ∧
    getFpsQt [1, 1] = Except.ok 0 := by
  constructor
  · have h := (c10_qt_fps_total [0, 1, 3]).2.2.2 (by simp)
      (by norm_num [List.getD])
    rw [h]
    norm_num [List.getD]
  · exact (c10_qt_fps_total [1, 1]).2.2.1 (by norm_num [List.getD])
